import Mathlib

/-!
Verification of the N3 sleep-scoring module (src/Sleepapnean3.py).

The Python module is shallowly embedded: EEG samples and the sampling rate
are exact rationals (ℚ), numpy arrays are lists, and the numpy reductions
used by the source (max, min, mean, var, diff, sign) are defined below from
their mathematical meaning.  The FIR band-pass filtering step
(scipy firwin + filtfilt) is floating-point signal processing with no exact
arithmetic content; it is abstracted as an explicit function parameter
`filt : List ℚ → ℚ → List ℚ` (signal, fs ↦ filtered signal), so every
theorem about the scoring logic holds for an arbitrary filter, and the
length-preservation property of filtfilt is taken as a hypothesis where
it is needed.  Python dynamic numeric semantics (int versus float, and the
exceptions raised by `//`, and `range`) are modelled by `PyNum` and
`Except String` where the segmentation code depends on them.
-/

/-- np.sign for a rational sample: 1, -1 or 0. -/
def npSign (x : ℚ) : ℤ :=
  if 0 < x then 1 else if x < 0 then -1 else 0

/-- np.max of a list (the source only applies it to nonempty slices;
the empty case defaults to 0). -/
def npMax (xs : List ℚ) : ℚ := xs.foldl max (xs.headD 0)

/-- np.min of a list (the source only applies it to nonempty slices;
the empty case defaults to 0). -/
def npMin (xs : List ℚ) : ℚ := xs.foldl min (xs.headD 0)

/-- np.mean of a list (empty case defaults to 0 via division by zero). -/
def npMean (xs : List ℚ) : ℚ := xs.sum / xs.length

/-- np.var of a list: mean squared deviation from the mean, dividing by the
number of samples (numpy default ddof = 0). -/
def npVar (xs : List ℚ) : ℚ :=
  ((xs.map (fun x => (x - npMean xs) ^ 2)).sum) / xs.length

/-- np.diff of a list: successive differences, element i is xs[i+1] - xs[i]. -/
def npDiff (xs : List ℚ) : List ℚ :=
  List.zipWith (fun a b => b - a) xs (xs.drop 1)

/-- check_signal_quality from the source (lines 17-38): reject signals that
are too short or flat, then test the variance-based SNR estimate.  The fs
argument is kept because the source takes it, although it is unused. -/
def check_signal_quality (signal : List ℚ) (fs : ℚ) : Bool :=
  if signal.length < 2 then false          -- too short to analyze
  else if npMax (signal.map (fun x => |x|)) = 0 then false  -- flat signal
  else
    let signal_power := npVar signal
    let noise_power := npVar (npDiff signal)
    if noise_power = 0 then decide (signal_power > 1/10)
    else decide (signal_power / noise_power > 5)

/-- Zero crossings of the filtered signal, line 75 of the source:
np.where(np.diff(np.sign(x)))[0], i.e. the indices i with
sign x[i] ≠ sign x[i+1], in increasing order. -/
def zeroCrossings (xs : List ℚ) : List ℕ :=
  (List.range (xs.length - 1)).filter
    (fun i => decide (npSign (xs.getD i 0) ≠ npSign (xs.getD (i+1) 0)))

/-- The candidate wave at scan position i: the slice
eeg_filtered[start_idx:end_idx] with start_idx = zero_crossings[i] and
end_idx = zero_crossings[i+2] (source lines 82-84). -/
def candidateWave (eeg_filtered : List ℚ) (zero_crossings : List ℕ) (i : ℕ) :
    List ℚ :=
  let start_idx := zero_crossings.getD i 0
  let end_idx := zero_crossings.getD (i+2) 0
  (eeg_filtered.drop start_idx).take (end_idx - start_idx)

/-- The candidate duration in seconds, (end_idx - start_idx) / fs
(source line 95). -/
def waveDuration (zero_crossings : List ℕ) (fs : ℚ) (i : ℕ) : ℚ :=
  ((zero_crossings.getD (i+2) 0 - zero_crossings.getD i 0 : ℕ) : ℚ) / fs

/-- The three validation criteria of source lines 90-102, combined exactly
as the accept condition of line 102: peak-to-peak amplitude at least 75,
duration within [0.5, 2.0] seconds, and both a strictly positive and a
strictly negative sample in the window. -/
def waveValid (eeg_filtered : List ℚ) (zero_crossings : List ℕ) (fs : ℚ)
    (i : ℕ) : Bool :=
  let candidate_wave := candidateWave eeg_filtered zero_crossings i
  let peak_to_peak := npMax candidate_wave - npMin candidate_wave
  let is_tall_enough := decide (peak_to_peak ≥ 75)
  let duration_sec := waveDuration zero_crossings fs i
  let is_slow_enough := decide (1/2 ≤ duration_sec) && decide (duration_sec ≤ 2)
  let has_both_signs := candidate_wave.any (fun x => decide (x > 0)) &&
    candidate_wave.any (fun x => decide (x < 0))
  is_tall_enough && is_slow_enough && has_both_signs

/-- The validator scan of source lines 79-106: a cursor i over the
zero-crossing sequence.  While i < len(zero_crossings) - 2 (equivalently
i + 2 < length over ℕ): slice the candidate; a candidate with fewer than 2
samples advances the cursor by 1; a valid candidate adds its duration and
advances by 2; an invalid one advances by 1.  Returns total_swa_time. -/
def swaLoop (eeg_filtered : List ℚ) (zero_crossings : List ℕ) (fs : ℚ)
    (i : ℕ) : ℚ :=
  if h : i + 2 < zero_crossings.length then
    let candidate_wave := candidateWave eeg_filtered zero_crossings i
    if candidate_wave.length < 2 then
      swaLoop eeg_filtered zero_crossings fs (i+1)
    else if waveValid eeg_filtered zero_crossings fs i then
      waveDuration zero_crossings fs i + swaLoop eeg_filtered zero_crossings fs (i+2)
    else
      swaLoop eeg_filtered zero_crossings fs (i+1)
  else 0
termination_by zero_crossings.length - i

/-- score_n3_epoch from the source (lines 43-110), with the FIR filtering
step abstracted as the parameter filt.  Returns swa_percent. -/
def score_n3_epoch (filt : List ℚ → ℚ → List ℚ) (eeg_signal : List ℚ)
    (fs : ℚ) (epoch_duration : ℚ) : ℚ :=
  if check_signal_quality eeg_signal fs = false then 0  -- poor signal
  else
    let eeg_filtered := filt eeg_signal fs
    let zero_crossings := zeroCrossings eeg_filtered
    let total_swa_time := swaLoop eeg_filtered zero_crossings fs 0
    (total_swa_time / epoch_duration) * 100

/-- One step of the validator scan, recorded for analysis: the cursor
position and whether the candidate there was accepted (its duration added). -/
structure ScanStep where
  pos : ℕ
  accepted : Bool
deriving DecidableEq

/-- The trace of the validator scan: the same recursion as swaLoop, but
recording at each iteration the position and the accept decision instead
of accumulating time. -/
def scanSteps (eeg_filtered : List ℚ) (zero_crossings : List ℕ) (fs : ℚ)
    (i : ℕ) : List ScanStep :=
  if h : i + 2 < zero_crossings.length then
    let candidate_wave := candidateWave eeg_filtered zero_crossings i
    if candidate_wave.length < 2 then
      ⟨i, false⟩ :: scanSteps eeg_filtered zero_crossings fs (i+1)
    else if waveValid eeg_filtered zero_crossings fs i then
      ⟨i, true⟩ :: scanSteps eeg_filtered zero_crossings fs (i+2)
    else
      ⟨i, false⟩ :: scanSteps eeg_filtered zero_crossings fs (i+1)
  else []
termination_by zero_crossings.length - i

/-- The cursor discipline of the scan, starting from position i: each step
sits at the current position, an accepted step advances the cursor by
exactly 2 crossings, any other step by exactly 1. -/
def advanceChain : ℕ → List ScanStep → Prop
  | _, [] => True
  | i, s :: rest =>
      s.pos = i ∧ advanceChain (if s.accepted then i + 2 else i + 1) rest

/-- Sum of the durations of the accepted steps of a scan trace. -/
def acceptedDurSum (zero_crossings : List ℕ) (fs : ℚ)
    (steps : List ScanStep) : ℚ :=
  ((steps.filter (fun s => s.accepted)).map
    (fun s => waveDuration zero_crossings fs s.pos)).sum

/-- The three slow-wave criteria as the spec words them (section 4.4):
peak-to-peak amplitude (max - min within the window) at least 75 µV,
duration in the closed interval [0.5, 2.0] seconds, and at least one
strictly positive and one strictly negative sample in the window. -/
def specWaveCriteria (c : List ℚ) (d : ℚ) : Prop :=
  75 ≤ npMax c - npMin c ∧ (1/2 ≤ d ∧ d ≤ 2) ∧
    (∃ x ∈ c, 0 < x) ∧ (∃ x ∈ c, x < 0)

/-- A Python number as it flows through score_n3_epochs: an int or a float.
Floats are modelled by their exact rational value; only the int/float type
distinction matters for the modelled exceptions. -/
inductive PyNum where
  | int : ℤ → PyNum
  | float : ℚ → PyNum
deriving DecidableEq

/-- Python multiplication: int * int is an int, any float operand makes the
result a float. -/
def PyNum.mul : PyNum → PyNum → PyNum
  | .int a, .int b => .int (a * b)
  | .int a, .float b => .float ((a : ℚ) * b)
  | .float a, .int b => .float (a * (b : ℚ))
  | .float a, .float b => .float (a * b)

/-- The rational value of a Python number. -/
def PyNum.toRat : PyNum → ℚ
  | .int a => (a : ℚ)
  | .float q => q

/-- Python floor division n // d of a nonnegative int n by a PyNum d:
ZeroDivisionError on d == 0; int floor quotient if d is an int; float floor
quotient if d is a float. -/
def pyFloorDivNat (n : ℕ) (d : PyNum) : Except String PyNum :=
  match d with
  | .int z =>
    if z = 0 then .error "ZeroDivisionError: integer division or modulo by zero"
    else .ok (.int (Int.fdiv n z))
  | .float q =>
    if q = 0 then .error "ZeroDivisionError: float floor division by zero"
    else .ok (.float (⌊(n : ℚ) / q⌋ : ℤ))

/-- Python range(n) as used by the epoch loop: an int n gives the indices
0..n-1 (empty for n ≤ 0); a float argument raises TypeError. -/
def pyRange : PyNum → Except String (List ℕ)
  | .int z => .ok (List.range z.toNat)
  | .float _ => .error "TypeError: float object cannot be interpreted as an integer"

/-- One record of the result list of score_n3_epochs (source lines 143-147). -/
structure EpochResult where
  epoch : ℕ
  stage : String
  swa_percent : ℚ
deriving DecidableEq

/-- score_n3_epochs from the source (lines 115-149).  samples_per_epoch is
epoch_duration * fs under Python numeric typing; num_epochs is the floor
division len(signal) // samples_per_epoch, and the loop for i in
range(num_epochs) raises TypeError when num_epochs is a float.  On the
successful path samples_per_epoch is a positive int whenever the loop body
runs, and the slice eeg_signal[start:end] is drop/take. -/
def score_n3_epochs (filt : List ℚ → ℚ → List ℚ) (eeg_signal : List ℚ)
    (fs : PyNum) (epoch_duration : PyNum) : Except String (List EpochResult) :=
  let samples_per_epoch := epoch_duration.mul fs
  match pyFloorDivNat eeg_signal.length samples_per_epoch with
  | .error e => .error e
  | .ok num_epochs =>
    match pyRange num_epochs with
    | .error e => .error e
    | .ok idxs =>
      let spe := ⌊samples_per_epoch.toRat⌋.toNat
      Except.ok (idxs.map (fun i =>
        let start := i * spe
        let epoch_signal := (eeg_signal.drop start).take spe
        let swa_percent :=
          score_n3_epoch filt epoch_signal fs.toRat epoch_duration.toRat
        ⟨i, if swa_percent ≥ 20 then "N3" else "Not N3", swa_percent⟩))

/-- A concrete five-sample alternating signal, used at witness
instantiations. -/
def altSignal : List ℚ := [100, -100, 100, -100, 100]

/-! ## Helper lemmas -/

theorem init_le_foldl_max (xs : List ℚ) : ∀ a : ℚ, a ≤ xs.foldl max a := by
  induction xs with
  | nil => intro a; simp
  | cons x t ih =>
    intro a
    calc a ≤ max a x := le_max_left a x
      _ ≤ t.foldl max (max a x) := ih (max a x)
      _ = (x :: t).foldl max a := by simp

theorem le_foldl_max_of_mem (xs : List ℚ) (x : ℚ) (hx : x ∈ xs) :
    ∀ a : ℚ, x ≤ xs.foldl max a := by
  induction xs with
  | nil => cases hx
  | cons y t ih =>
    intro a
    rcases List.mem_cons.mp hx with rfl | h
    · calc x ≤ max a x := le_max_right a x
        _ ≤ t.foldl max (max a x) := init_le_foldl_max t (max a x)
        _ = (x :: t).foldl max a := by simp
    · simpa using ih h (max a y)

theorem foldl_max_eq_zero (xs : List ℚ) (h : ∀ x ∈ xs, x = 0) :
    ∀ a : ℚ, a = 0 → xs.foldl max a = 0 := by
  induction xs with
  | nil => intro a ha; simpa using ha
  | cons y t ih =>
    intro a ha
    have hy : y = 0 := h y (List.mem_cons_self y t)
    have : max a y = 0 := by rw [ha, hy]; simp
    simpa using ih (fun x hx => h x (List.mem_cons_of_mem y hx)) (max a y) this

theorem npMax_abs_eq_zero_iff (s : List ℚ) (hs : s ≠ []) :
    npMax (s.map fun x => |x|) = 0 ↔ ∀ x ∈ s, x = 0 := by
  constructor
  · intro h0 x hx
    have hmem : |x| ∈ s.map (fun x => |x|) := List.mem_map.mpr ⟨x, hx, rfl⟩
    have hle : |x| ≤ npMax (s.map fun x => |x|) :=
      le_foldl_max_of_mem _ _ hmem _
    rw [h0] at hle
    exact abs_eq_zero.mp (le_antisymm hle (abs_nonneg x))
  · intro hz
    have hall : ∀ y ∈ s.map (fun x => |x|), y = 0 := by
      intro y hy
      rcases List.mem_map.mp hy with ⟨x, hx, rfl⟩
      rw [hz x hx]; simp
    have hhead : (s.map fun x => |x|).headD 0 = 0 := by
      cases s with
      | nil => simp
      | cons x t => simpa using hall |x| (by simp)
    unfold npMax
    exact foldl_max_eq_zero _ hall _ hhead

theorem check_signal_quality_false_of_degenerate (s : List ℚ) (fs : ℚ)
    (h : (∀ x ∈ s, x = 0) ∨ s.length < 2) :
    check_signal_quality s fs = false := by
  unfold check_signal_quality
  rcases h with hz | hlen
  · by_cases hl : s.length < 2
    · simp [hl]
    · have hs : s ≠ [] := by
        intro e
        rw [e] at hl
        simp at hl
      rw [if_neg hl, if_pos ((npMax_abs_eq_zero_iff s hs).mpr hz)]
  · simp [hlen]

theorem score_n3_epoch_eq_zero_of_gate (filt : List ℚ → ℚ → List ℚ)
    (s : List ℚ) (fs ed : ℚ) (h : check_signal_quality s fs = false) :
    score_n3_epoch filt s fs ed = 0 := by
  unfold score_n3_epoch
  rw [if_pos h]

/-! ## Claim theorems: quality gate and degenerate inputs -/

/-- Claim C10 -/
theorem check_signal_quality_ignores_fs (signal : List ℚ) (fs1 fs2 : ℚ) :
    check_signal_quality signal fs1 = check_signal_quality signal fs2 := rfl

/-- Claim C6 counterexample -/
theorem score_n3_epoch_silent_zero_cex :
    score_n3_epoch (fun s _ => s) [] (-1) 30 = 0 := rfl

/-- Claim C6 amended -/
theorem score_n3_epoch_empty_returns_zero (filt : List ℚ → ℚ → List ℚ)
    (fs ed : ℚ) : score_n3_epoch filt [] fs ed = 0 := rfl

/-- Claim C5 -/
theorem score_n3_epoch_gate (s : List ℚ) (fs ed : ℚ) :
    ((∀ x ∈ s, x = 0) ∨ s.length < 2 →
      ∀ filt : List ℚ → ℚ → List ℚ, score_n3_epoch filt s fs ed = 0) ∧
    (check_signal_quality s fs = false →
      ∀ filt : List ℚ → ℚ → List ℚ, score_n3_epoch filt s fs ed = 0) := by
  constructor
  · intro h filt
    exact score_n3_epoch_eq_zero_of_gate filt s fs ed
      (check_signal_quality_false_of_degenerate s fs h)
  · intro h filt
    exact score_n3_epoch_eq_zero_of_gate filt s fs ed h

/-- Claim C5 witness -/
theorem score_n3_epoch_gate_witness :
    score_n3_epoch (fun s _ => s) [0, 0, 0] 100 30 = 0 :=
  (score_n3_epoch_gate [0, 0, 0] 100 30).1 (Or.inl (by decide)) (fun s _ => s)

/-- Claim C4 -/
theorem check_signal_quality_spec (signal : List ℚ) (fs : ℚ) :
    check_signal_quality signal fs = true ↔
      2 ≤ signal.length ∧ (∃ x ∈ signal, x ≠ 0) ∧
        (npVar (npDiff signal) = 0 → 1/10 < npVar signal) ∧
        (npVar (npDiff signal) ≠ 0 →
          5 < npVar signal / npVar (npDiff signal)) := by
  unfold check_signal_quality
  by_cases hl : signal.length < 2
  · simp [hl]
  · have h2 : 2 ≤ signal.length := by omega
    have hs : signal ≠ [] := by
      intro e; rw [e] at h2; simp at h2
    rw [if_neg hl]
    by_cases hflat : npMax (signal.map fun x => |x|) = 0
    · rw [if_pos hflat]
      refine iff_of_false (by simp) ?_
      intro hc
      rcases hc.2.1 with ⟨x, hx, hxne⟩
      exact hxne ((npMax_abs_eq_zero_iff signal hs).mp hflat x hx)
    · rw [if_neg hflat]
      have hex : ∃ x ∈ signal, x ≠ 0 := by
        by_contra hc
        push_neg at hc
        exact hflat ((npMax_abs_eq_zero_iff signal hs).mpr hc)
      show (if npVar (npDiff signal) = 0 then decide (npVar signal > 1/10)
        else decide (npVar signal / npVar (npDiff signal) > 5)) = true ↔ _
      by_cases hnp : npVar (npDiff signal) = 0
      · rw [if_pos hnp]
        simp only [decide_eq_true_eq]
        constructor
        · intro h
          exact ⟨h2, hex, fun _ => h, fun hc => absurd hnp hc⟩
        · rintro ⟨-, -, h, -⟩
          exact h hnp
      · rw [if_neg hnp]
        simp only [decide_eq_true_eq]
        constructor
        · intro h
          exact ⟨h2, hex, fun hc => absurd hc hnp, fun _ => h⟩
        · rintro ⟨-, -, -, h⟩
          exact h hnp
/-- Claim C1 -/
theorem score_n3_epochs_stage_iff (filt : List ℚ → ℚ → List ℚ)
    (eeg_signal : List ℚ) (fs epoch_duration : PyNum) (rs : List EpochResult)
    (hok : score_n3_epochs filt eeg_signal fs epoch_duration = Except.ok rs)
    (r : EpochResult) (hr : r ∈ rs) :
    r.stage = "N3" ↔ 20 ≤ r.swa_percent := by
  simp only [score_n3_epochs] at hok
  rcases hd : pyFloorDivNat eeg_signal.length (epoch_duration.mul fs) with e | num_epochs
  · rw [hd] at hok
    simp at hok
  · rw [hd] at hok
    dsimp only at hok
    rcases hg : pyRange num_epochs with e | idxs
    · rw [hg] at hok
      simp at hok
    · rw [hg] at hok
      dsimp only at hok
      simp only [Except.ok.injEq] at hok
      subst hok
      rcases List.mem_map.mp hr with ⟨i, _, rfl⟩
      by_cases h20 : score_n3_epoch filt
          ((eeg_signal.drop (i * ⌊(epoch_duration.mul fs).toRat⌋.toNat)).take
            ⌊(epoch_duration.mul fs).toRat⌋.toNat) fs.toRat epoch_duration.toRat ≥ 20
      · simp [h20]
      · simp [h20]

/-- Claim C1 witness -/
theorem score_n3_epochs_stage_iff_witness :
    ((⟨0, "Not N3", 0⟩ : EpochResult).stage = "N3" ↔
      20 ≤ (⟨0, "Not N3", 0⟩ : EpochResult).swa_percent) :=
  score_n3_epochs_stage_iff (fun s _ => s) [0, 0, 0] (.int 1) (.int 1)
    [⟨0, "Not N3", 0⟩, ⟨1, "Not N3", 0⟩, ⟨2, "Not N3", 0⟩] (by rfl)
    ⟨0, "Not N3", 0⟩ (by decide)

/-- Claim C9 counterexample -/
theorem score_n3_epochs_fractional_fs_cex :
    score_n3_epochs (fun s _ => s) (List.replicate 3000 0)
      (PyNum.float (201/2)) (PyNum.int 30) =
    Except.error "TypeError: float object cannot be interpreted as an integer" := by
  norm_num [score_n3_epochs, PyNum.mul, pyFloorDivNat, pyRange]

/-- Claim C9 amended -/
theorem score_n3_epochs_float_fs_errors (filt : List ℚ → ℚ → List ℚ)
    (eeg_signal : List ℚ) (q : ℚ) (e : ℤ) :
    ∃ msg, score_n3_epochs filt eeg_signal (PyNum.float q) (PyNum.int e) =
      Except.error msg := by
  simp only [score_n3_epochs, PyNum.mul, pyFloorDivNat]
  by_cases hq : (e : ℚ) * q = 0
  · rw [if_pos hq]
    exact ⟨_, rfl⟩
  · rw [if_neg hq]
    exact ⟨_, rfl⟩
theorem score_n3_epochs_int_eq (filt : List ℚ → ℚ → List ℚ)
    (eeg_signal : List ℚ) (f e : ℤ) (hf : 0 < f) (he : 0 < e) :
    score_n3_epochs filt eeg_signal (PyNum.int f) (PyNum.int e) =
      Except.ok ((List.range (eeg_signal.length / (e * f).toNat)).map
        (fun i => ⟨i,
          if score_n3_epoch filt
              ((eeg_signal.drop (i * (e * f).toNat)).take ((e * f).toNat))
              (f : ℚ) (e : ℚ) ≥ 20 then "N3" else "Not N3",
          score_n3_epoch filt
            ((eeg_signal.drop (i * (e * f).toNat)).take ((e * f).toNat))
            (f : ℚ) (e : ℚ)⟩)) := by
  have hef : (0:ℤ) < e * f := mul_pos he hf
  have hnum : Int.fdiv (eeg_signal.length : ℤ) (e * f) =
      ((eeg_signal.length / (e * f).toNat : ℕ) : ℤ) := by
    rw [Int.fdiv_eq_ediv _ hef.le, Int.natCast_div,
      Int.toNat_of_nonneg hef.le]
  simp only [score_n3_epochs, PyNum.mul, pyFloorDivNat, if_neg hef.ne',
    pyRange]
  rw [hnum, Int.toNat_natCast]
  rfl

/-- Claim C8 -/
theorem score_n3_epochs_segmentation (filt : List ℚ → ℚ → List ℚ)
    (eeg_signal : List ℚ) (f e : ℤ) (hf : 0 < f) (he : 0 < e) :
    ∃ rs, score_n3_epochs filt eeg_signal (PyNum.int f) (PyNum.int e) =
        Except.ok rs ∧
      rs.length = eeg_signal.length / (e * f).toNat ∧
      ∀ k (hk : k < rs.length),
        (rs.get ⟨k, hk⟩).epoch = k ∧
        (rs.get ⟨k, hk⟩).swa_percent =
          score_n3_epoch filt
            ((eeg_signal.drop (k * (e * f).toNat)).take ((e * f).toNat))
            (f : ℚ) (e : ℚ) := by
  refine ⟨_, score_n3_epochs_int_eq filt eeg_signal f e hf he, ?_, ?_⟩
  · rw [List.length_map, List.length_range]
  · intro k hk
    rw [List.length_map, List.length_range] at hk
    constructor
    · rw [List.get_eq_getElem]
      simp only [List.getElem_map, List.getElem_range]
    · rw [List.get_eq_getElem]
      simp only [List.getElem_map, List.getElem_range]

/-- Claim C8 witness -/
theorem score_n3_epochs_segmentation_witness :
    ∃ rs, score_n3_epochs (fun s _ => s) ([0, 0, 0, 0, 0] : List ℚ)
        (PyNum.int 1) (PyNum.int 2) = Except.ok rs ∧
      rs.length = ([0, 0, 0, 0, 0] : List ℚ).length / ((2 : ℤ) * 1).toNat ∧
      ∀ k (hk : k < rs.length),
        (rs.get ⟨k, hk⟩).epoch = k ∧
        (rs.get ⟨k, hk⟩).swa_percent =
          score_n3_epoch (fun s _ => s)
            ((([0, 0, 0, 0, 0] : List ℚ).drop (k * ((2 : ℤ) * 1).toNat)).take
              (((2 : ℤ) * 1).toNat))
            ((1 : ℤ) : ℚ) ((2 : ℤ) : ℚ) :=
  score_n3_epochs_segmentation (fun s _ => s) [0, 0, 0, 0, 0] 1 2
    (by decide) (by decide)
theorem swaLoop_of_not_guard (xs : List ℚ) (zc : List ℕ) (fs : ℚ) (i : ℕ)
    (h : ¬ i + 2 < zc.length) : swaLoop xs zc fs i = 0 := by
  rw [swaLoop]
  simp [h]

theorem swaLoop_of_short (xs : List ℚ) (zc : List ℕ) (fs : ℚ) (i : ℕ)
    (h : i + 2 < zc.length) (hc : (candidateWave xs zc i).length < 2) :
    swaLoop xs zc fs i = swaLoop xs zc fs (i+1) := by
  rw [swaLoop]
  simp [h, hc]

theorem swaLoop_of_valid (xs : List ℚ) (zc : List ℕ) (fs : ℚ) (i : ℕ)
    (h : i + 2 < zc.length) (hc : ¬ (candidateWave xs zc i).length < 2)
    (hv : waveValid xs zc fs i = true) :
    swaLoop xs zc fs i = waveDuration zc fs i + swaLoop xs zc fs (i+2) := by
  rw [swaLoop]
  simp [h, hc, hv]

theorem swaLoop_of_invalid (xs : List ℚ) (zc : List ℕ) (fs : ℚ) (i : ℕ)
    (h : i + 2 < zc.length) (hc : ¬ (candidateWave xs zc i).length < 2)
    (hv : waveValid xs zc fs i = false) :
    swaLoop xs zc fs i = swaLoop xs zc fs (i+1) := by
  rw [swaLoop]
  simp [h, hc, hv]

theorem scanSteps_of_not_guard (xs : List ℚ) (zc : List ℕ) (fs : ℚ) (i : ℕ)
    (h : ¬ i + 2 < zc.length) : scanSteps xs zc fs i = [] := by
  rw [scanSteps]
  simp [h]

theorem scanSteps_of_short (xs : List ℚ) (zc : List ℕ) (fs : ℚ) (i : ℕ)
    (h : i + 2 < zc.length) (hc : (candidateWave xs zc i).length < 2) :
    scanSteps xs zc fs i = ⟨i, false⟩ :: scanSteps xs zc fs (i+1) := by
  rw [scanSteps]
  simp [h, hc]

theorem scanSteps_of_valid (xs : List ℚ) (zc : List ℕ) (fs : ℚ) (i : ℕ)
    (h : i + 2 < zc.length) (hc : ¬ (candidateWave xs zc i).length < 2)
    (hv : waveValid xs zc fs i = true) :
    scanSteps xs zc fs i = ⟨i, true⟩ :: scanSteps xs zc fs (i+2) := by
  rw [scanSteps]
  simp [h, hc, hv]

theorem scanSteps_of_invalid (xs : List ℚ) (zc : List ℕ) (fs : ℚ) (i : ℕ)
    (h : i + 2 < zc.length) (hc : ¬ (candidateWave xs zc i).length < 2)
    (hv : waveValid xs zc fs i = false) :
    scanSteps xs zc fs i = ⟨i, false⟩ :: scanSteps xs zc fs (i+1) := by
  rw [scanSteps]
  simp [h, hc, hv]

theorem acceptedDurSum_cons_false (zc : List ℕ) (fs : ℚ) (i : ℕ)
    (rest : List ScanStep) :
    acceptedDurSum zc fs (⟨i, false⟩ :: rest) = acceptedDurSum zc fs rest := by
  simp [acceptedDurSum]

theorem acceptedDurSum_cons_true (zc : List ℕ) (fs : ℚ) (i : ℕ)
    (rest : List ScanStep) :
    acceptedDurSum zc fs (⟨i, true⟩ :: rest) =
      waveDuration zc fs i + acceptedDurSum zc fs rest := by
  simp [acceptedDurSum]

theorem waveValid_iff_specWaveCriteria (xs : List ℚ) (zc : List ℕ) (fs : ℚ)
    (i : ℕ) :
    waveValid xs zc fs i = true ↔
      specWaveCriteria (candidateWave xs zc i) (waveDuration zc fs i) := by
  unfold waveValid specWaveCriteria
  simp only [Bool.and_eq_true, decide_eq_true_eq, List.any_eq_true]
  tauto

theorem swaLoop_eq_acceptedDurSum_aux (xs : List ℚ) (zc : List ℕ) (fs : ℚ) :
    ∀ k i : ℕ, zc.length - i ≤ k →
      swaLoop xs zc fs i = acceptedDurSum zc fs (scanSteps xs zc fs i) := by
  intro k
  induction k with
  | zero =>
    intro i hik
    rw [swaLoop_of_not_guard xs zc fs i (by omega),
      scanSteps_of_not_guard xs zc fs i (by omega)]
    simp [acceptedDurSum]
  | succ k ih =>
    intro i hik
    by_cases h : i + 2 < zc.length
    · by_cases hc : (candidateWave xs zc i).length < 2
      · rw [swaLoop_of_short xs zc fs i h hc, scanSteps_of_short xs zc fs i h hc,
          acceptedDurSum_cons_false, ih (i+1) (by omega)]
      · cases hv : waveValid xs zc fs i with
        | true =>
          rw [swaLoop_of_valid xs zc fs i h hc hv,
            scanSteps_of_valid xs zc fs i h hc hv,
            acceptedDurSum_cons_true, ih (i+2) (by omega)]
        | false =>
          rw [swaLoop_of_invalid xs zc fs i h hc hv,
            scanSteps_of_invalid xs zc fs i h hc hv,
            acceptedDurSum_cons_false, ih (i+1) (by omega)]
    · rw [swaLoop_of_not_guard xs zc fs i h, scanSteps_of_not_guard xs zc fs i h]
      simp [acceptedDurSum]

theorem scanSteps_advanceChain_aux (xs : List ℚ) (zc : List ℕ) (fs : ℚ) :
    ∀ k i : ℕ, zc.length - i ≤ k → advanceChain i (scanSteps xs zc fs i) := by
  intro k
  induction k with
  | zero =>
    intro i hik
    rw [scanSteps_of_not_guard xs zc fs i (by omega)]
    trivial
  | succ k ih =>
    intro i hik
    by_cases h : i + 2 < zc.length
    · by_cases hc : (candidateWave xs zc i).length < 2
      · rw [scanSteps_of_short xs zc fs i h hc]
        exact ⟨rfl, by simpa using ih (i+1) (by omega)⟩
      · cases hv : waveValid xs zc fs i with
        | true =>
          rw [scanSteps_of_valid xs zc fs i h hc hv]
          exact ⟨rfl, by simpa using ih (i+2) (by omega)⟩
        | false =>
          rw [scanSteps_of_invalid xs zc fs i h hc hv]
          exact ⟨rfl, by simpa using ih (i+1) (by omega)⟩
    · rw [scanSteps_of_not_guard xs zc fs i h]
      trivial

theorem scanSteps_eq_nil_iff (xs : List ℚ) (zc : List ℕ) (fs : ℚ) (i : ℕ) :
    scanSteps xs zc fs i = [] ↔ zc.length ≤ i + 2 := by
  by_cases h : i + 2 < zc.length
  · constructor
    · intro hnil
      by_cases hc : (candidateWave xs zc i).length < 2
      · rw [scanSteps_of_short xs zc fs i h hc] at hnil
        cases hnil
      · cases hv : waveValid xs zc fs i with
        | true =>
          rw [scanSteps_of_valid xs zc fs i h hc hv] at hnil
          cases hnil
        | false =>
          rw [scanSteps_of_invalid xs zc fs i h hc hv] at hnil
          cases hnil
    · intro hle
      omega
  · rw [scanSteps_of_not_guard xs zc fs i h]
    simp
    omega

theorem scanSteps_accepted_aux (xs : List ℚ) (zc : List ℕ) (fs : ℚ) :
    ∀ k i : ℕ, zc.length - i ≤ k →
      ∀ s ∈ scanSteps xs zc fs i,
        s.accepted = true ↔
          2 ≤ (candidateWave xs zc s.pos).length ∧
            waveValid xs zc fs s.pos = true := by
  intro k
  induction k with
  | zero =>
    intro i hik s hs
    rw [scanSteps_of_not_guard xs zc fs i (by omega)] at hs
    cases hs
  | succ k ih =>
    intro i hik s hs
    by_cases h : i + 2 < zc.length
    · by_cases hc : (candidateWave xs zc i).length < 2
      · rw [scanSteps_of_short xs zc fs i h hc] at hs
        rcases List.mem_cons.mp hs with rfl | hs'
        · simp only [Bool.false_eq_true, false_iff]
          rintro ⟨h2, -⟩
          omega
        · exact ih (i+1) (by omega) s hs'
      · cases hv : waveValid xs zc fs i with
        | true =>
          rw [scanSteps_of_valid xs zc fs i h hc hv] at hs
          rcases List.mem_cons.mp hs with rfl | hs'
          · simp only [true_iff]
            exact ⟨by omega, hv⟩
          · exact ih (i+2) (by omega) s hs'
        | false =>
          rw [scanSteps_of_invalid xs zc fs i h hc hv] at hs
          rcases List.mem_cons.mp hs with rfl | hs'
          · simp only [Bool.false_eq_true, false_iff]
            rintro ⟨-, hv'⟩
            rw [hv] at hv'
            cases hv'
          · exact ih (i+1) (by omega) s hs'
    · rw [scanSteps_of_not_guard xs zc fs i h] at hs
      cases hs

/-- Claim C2 -/
theorem wave_validator_criteria (eeg_filtered : List ℚ) (fs : ℚ) (i : ℕ)
    (hguard : i + 2 < (zeroCrossings eeg_filtered).length)
    (hlen : 2 ≤ (candidateWave eeg_filtered (zeroCrossings eeg_filtered) i).length) :
    (waveValid eeg_filtered (zeroCrossings eeg_filtered) fs i = true ↔
      specWaveCriteria
        (candidateWave eeg_filtered (zeroCrossings eeg_filtered) i)
        (waveDuration (zeroCrossings eeg_filtered) fs i)) ∧
    (specWaveCriteria
        (candidateWave eeg_filtered (zeroCrossings eeg_filtered) i)
        (waveDuration (zeroCrossings eeg_filtered) fs i) →
      swaLoop eeg_filtered (zeroCrossings eeg_filtered) fs i =
        waveDuration (zeroCrossings eeg_filtered) fs i +
          swaLoop eeg_filtered (zeroCrossings eeg_filtered) fs (i + 2)) ∧
    (¬ specWaveCriteria
        (candidateWave eeg_filtered (zeroCrossings eeg_filtered) i)
        (waveDuration (zeroCrossings eeg_filtered) fs i) →
      swaLoop eeg_filtered (zeroCrossings eeg_filtered) fs i =
        swaLoop eeg_filtered (zeroCrossings eeg_filtered) fs (i + 1)) := by
  have hb := waveValid_iff_specWaveCriteria eeg_filtered
    (zeroCrossings eeg_filtered) fs i
  refine ⟨hb, ?_, ?_⟩
  · intro hcrit
    exact swaLoop_of_valid _ _ _ _ hguard (by omega) (hb.mpr hcrit)
  · intro hcrit
    have hfalse : waveValid eeg_filtered (zeroCrossings eeg_filtered) fs i = false := by
      cases hv : waveValid eeg_filtered (zeroCrossings eeg_filtered) fs i with
      | false => rfl
      | true => exact absurd (hb.mp hv) hcrit
    exact swaLoop_of_invalid _ _ _ _ hguard (by omega) hfalse

/-- Claim C2 witness -/
theorem wave_validator_criteria_witness :
    (waveValid altSignal (zeroCrossings altSignal) 1 0 = true ↔
      specWaveCriteria (candidateWave altSignal (zeroCrossings altSignal) 0)
        (waveDuration (zeroCrossings altSignal) 1 0)) ∧
    (specWaveCriteria (candidateWave altSignal (zeroCrossings altSignal) 0)
        (waveDuration (zeroCrossings altSignal) 1 0) →
      swaLoop altSignal (zeroCrossings altSignal) 1 0 =
        waveDuration (zeroCrossings altSignal) 1 0 +
          swaLoop altSignal (zeroCrossings altSignal) 1 (0 + 2)) ∧
    (¬ specWaveCriteria (candidateWave altSignal (zeroCrossings altSignal) 0)
        (waveDuration (zeroCrossings altSignal) 1 0) →
      swaLoop altSignal (zeroCrossings altSignal) 1 0 =
        swaLoop altSignal (zeroCrossings altSignal) 1 (0 + 1)) :=
  wave_validator_criteria altSignal 1 0 (by decide) (by decide)

/-- Claim C3 -/
theorem validator_scan_structure (eeg_filtered : List ℚ) (fs : ℚ) :
    (∀ i, swaLoop eeg_filtered (zeroCrossings eeg_filtered) fs i =
      acceptedDurSum (zeroCrossings eeg_filtered) fs
        (scanSteps eeg_filtered (zeroCrossings eeg_filtered) fs i)) ∧
    (∀ i, advanceChain i
      (scanSteps eeg_filtered (zeroCrossings eeg_filtered) fs i)) ∧
    (∀ i, scanSteps eeg_filtered (zeroCrossings eeg_filtered) fs i = [] ↔
      (zeroCrossings eeg_filtered).length ≤ i + 2) ∧
    (∀ i, ∀ s ∈ scanSteps eeg_filtered (zeroCrossings eeg_filtered) fs i,
      s.accepted = true ↔
        2 ≤ (candidateWave eeg_filtered (zeroCrossings eeg_filtered)
          s.pos).length ∧
          waveValid eeg_filtered (zeroCrossings eeg_filtered) fs s.pos = true) :=
  ⟨fun i => swaLoop_eq_acceptedDurSum_aux _ _ fs _ i (Nat.sub_le _ _),
   fun i => scanSteps_advanceChain_aux _ _ fs _ i (Nat.sub_le _ _),
   fun i => scanSteps_eq_nil_iff _ _ fs i,
   fun i s hs => scanSteps_accepted_aux _ _ fs _ i (Nat.sub_le _ _) s hs⟩
theorem waveDuration_nonneg (zc : List ℕ) (fs : ℚ) (i : ℕ) (hfs : 0 ≤ fs) :
    0 ≤ waveDuration zc fs i :=
  div_nonneg (Nat.cast_nonneg _) hfs

theorem swaLoop_nonneg_aux (xs : List ℚ) (zc : List ℕ) (fs : ℚ)
    (hfs : 0 ≤ fs) :
    ∀ k i : ℕ, zc.length - i ≤ k → 0 ≤ swaLoop xs zc fs i := by
  intro k
  induction k with
  | zero =>
    intro i hik
    rw [swaLoop_of_not_guard xs zc fs i (by omega)]
  | succ k ih =>
    intro i hik
    by_cases h : i + 2 < zc.length
    · by_cases hc : (candidateWave xs zc i).length < 2
      · rw [swaLoop_of_short xs zc fs i h hc]
        exact ih (i+1) (by omega)
      · cases hv : waveValid xs zc fs i with
        | true =>
          rw [swaLoop_of_valid xs zc fs i h hc hv]
          exact add_nonneg (waveDuration_nonneg zc fs i hfs) (ih (i+2) (by omega))
        | false =>
          rw [swaLoop_of_invalid xs zc fs i h hc hv]
          exact ih (i+1) (by omega)
    · rw [swaLoop_of_not_guard xs zc fs i h]

theorem swaLoop_nonneg (xs : List ℚ) (zc : List ℕ) (fs : ℚ) (hfs : 0 ≤ fs)
    (i : ℕ) : 0 ≤ swaLoop xs zc fs i :=
  swaLoop_nonneg_aux xs zc fs hfs zc.length i (Nat.sub_le _ _)

theorem zeroCrossings_pairwise (xs : List ℚ) :
    (zeroCrossings xs).Pairwise (· < ·) :=
  List.Pairwise.sublist (List.filter_sublist _) (List.pairwise_lt_range _)

theorem zeroCrossings_mem_lt (xs : List ℚ) :
    ∀ j ∈ zeroCrossings xs, j < xs.length - 1 := by
  intro j hj
  exact List.mem_range.mp (List.mem_filter.mp hj).1

theorem getD_mono_of_pairwise (zc : List ℕ) (hmono : zc.Pairwise (· < ·))
    (i j : ℕ) (hij : i ≤ j) (hj : j < zc.length) :
    zc.getD i 0 ≤ zc.getD j 0 := by
  rcases Nat.eq_or_lt_of_le hij with rfl | hlt
  · exact le_refl _
  · rw [List.getD_eq_getElem _ _ (lt_trans hlt hj), List.getD_eq_getElem _ _ hj]
    exact (List.pairwise_iff_getElem.mp hmono i j (lt_trans hlt hj) hj hlt).le

theorem swaLoop_mul_le_aux (xs : List ℚ) (zc : List ℕ) (fs : ℚ)
    (hfs : 0 < fs) (hmono : zc.Pairwise (· < ·)) (B : ℚ)
    (hB : ∀ j ∈ zc, (j : ℚ) ≤ B) :
    ∀ k i : ℕ, zc.length - i ≤ k → i < zc.length →
      swaLoop xs zc fs i * fs ≤ B - (zc.getD i 0 : ℚ) := by
  intro k
  induction k with
  | zero =>
    intro i hik hi
    exact absurd hi (by omega)
  | succ k ih =>
    intro i hik hi
    by_cases h : i + 2 < zc.length
    · by_cases hc : (candidateWave xs zc i).length < 2
      · rw [swaLoop_of_short xs zc fs i h hc]
        have h1 := ih (i+1) (by omega) (by omega)
        have h01 : ((zc.getD i 0 : ℕ) : ℚ) ≤ ((zc.getD (i+1) 0 : ℕ) : ℚ) :=
          Nat.cast_le.mpr
            (getD_mono_of_pairwise zc hmono i (i+1) (by omega) (by omega))
        linarith
      · cases hv : waveValid xs zc fs i with
        | true =>
          rw [swaLoop_of_valid xs zc fs i h hc hv, add_mul]
          have h2 := ih (i+2) (by omega) h
          have hii2 : zc.getD i 0 ≤ zc.getD (i+2) 0 :=
            getD_mono_of_pairwise zc hmono i (i+2) (by omega) h
          have hdur : waveDuration zc fs i * fs =
              ((zc.getD (i+2) 0 : ℕ) : ℚ) - ((zc.getD i 0 : ℕ) : ℚ) := by
            unfold waveDuration
            rw [div_mul_cancel₀ _ hfs.ne', Nat.cast_sub hii2]
          rw [hdur]
          linarith
        | false =>
          rw [swaLoop_of_invalid xs zc fs i h hc hv]
          have h1 := ih (i+1) (by omega) (by omega)
          have h01 : ((zc.getD i 0 : ℕ) : ℚ) ≤ ((zc.getD (i+1) 0 : ℕ) : ℚ) :=
            Nat.cast_le.mpr
              (getD_mono_of_pairwise zc hmono i (i+1) (by omega) (by omega))
          linarith
    · rw [swaLoop_of_not_guard xs zc fs i h, zero_mul]
      have hmem : zc.getD i 0 ∈ zc := by
        rw [List.getD_eq_getElem _ _ hi]
        exact List.getElem_mem hi
      have := hB _ hmem
      linarith

theorem swaLoop_zeroCrossings_mul_le (xs : List ℚ) (fs : ℚ) (hfs : 0 < fs) :
    swaLoop xs (zeroCrossings xs) fs 0 * fs ≤ (xs.length : ℚ) := by
  by_cases h0 : 0 < (zeroCrossings xs).length
  · have hB : ∀ j ∈ zeroCrossings xs, (j : ℚ) ≤ (xs.length : ℚ) := by
      intro j hj
      have hj' := zeroCrossings_mem_lt xs j hj
      exact Nat.cast_le.mpr (by omega)
    have hmain := swaLoop_mul_le_aux xs (zeroCrossings xs) fs hfs
      (zeroCrossings_pairwise xs) (xs.length : ℚ) hB
      (zeroCrossings xs).length 0 (Nat.sub_le _ _) h0
    have hge : (0:ℚ) ≤ (((zeroCrossings xs).getD 0 0 : ℕ) : ℚ) :=
      Nat.cast_nonneg _
    linarith
  · rw [swaLoop_of_not_guard xs _ fs 0 (by omega), zero_mul]
    exact Nat.cast_nonneg _

theorem score_n3_epoch_bounds (filt : List ℚ → ℚ → List ℚ) (s : List ℚ)
    (fsq edq : ℚ) (hfs : 0 < fsq) (hed : 0 < edq)
    (hflen : ((filt s fsq).length : ℚ) ≤ edq * fsq) :
    0 ≤ score_n3_epoch filt s fsq edq ∧ score_n3_epoch filt s fsq edq ≤ 100 := by
  unfold score_n3_epoch
  by_cases hq : check_signal_quality s fsq = false
  · rw [if_pos hq]
    exact ⟨le_refl 0, by norm_num⟩
  · rw [if_neg hq]
    have h0 : 0 ≤ swaLoop (filt s fsq) (zeroCrossings (filt s fsq)) fsq 0 :=
      swaLoop_nonneg _ _ fsq hfs.le 0
    have h1 := swaLoop_zeroCrossings_mul_le (filt s fsq) fsq hfs
    have h2 : swaLoop (filt s fsq) (zeroCrossings (filt s fsq)) fsq 0 ≤ edq :=
      le_of_mul_le_mul_right (le_trans h1 hflen) hfs
    constructor
    · exact mul_nonneg (div_nonneg h0 hed.le) (by norm_num)
    · have h3 : swaLoop (filt s fsq) (zeroCrossings (filt s fsq)) fsq 0 / edq ≤ 1 :=
        (div_le_one hed).mpr h2
      calc swaLoop (filt s fsq) (zeroCrossings (filt s fsq)) fsq 0 / edq * 100
          ≤ 1 * 100 := mul_le_mul_of_nonneg_right h3 (by norm_num)
        _ = 100 := one_mul 100

/-- Claim C7 -/
theorem epoch_result_swa_percent_range (filt : List ℚ → ℚ → List ℚ)
    (hfilt : ∀ s q, (filt s q).length = s.length)
    (eeg_signal : List ℚ) (f e : ℤ) (hf : 0 < f) (he : 0 < e)
    (rs : List EpochResult)
    (hok : score_n3_epochs filt eeg_signal (PyNum.int f) (PyNum.int e) =
      Except.ok rs)
    (r : EpochResult) (hr : r ∈ rs) :
    0 ≤ r.swa_percent ∧ r.swa_percent ≤ 100 := by
  rw [score_n3_epochs_int_eq filt eeg_signal f e hf he] at hok
  simp only [Except.ok.injEq] at hok
  subst hok
  rcases List.mem_map.mp hr with ⟨i, _, rfl⟩
  dsimp only
  have hef : (0:ℤ) < e * f := mul_pos he hf
  have hfsq : (0:ℚ) < (f : ℚ) := by exact_mod_cast hf
  have hedq : (0:ℚ) < (e : ℚ) := by exact_mod_cast he
  apply score_n3_epoch_bounds filt _ _ _ hfsq hedq
  rw [hfilt]
  have hle : ((eeg_signal.drop (i * (e*f).toNat)).take ((e*f).toNat)).length
      ≤ (e*f).toNat := by
    rw [List.length_take]
    exact min_le_left _ _
  have h1 : ((e * f).toNat : ℤ) = e * f := Int.toNat_of_nonneg hef.le
  have hcast : (((e * f).toNat : ℕ) : ℚ) = (e : ℚ) * (f : ℚ) := by
    exact_mod_cast congrArg (fun z : ℤ => (z : ℚ)) h1
  calc (((eeg_signal.drop (i * (e*f).toNat)).take ((e*f).toNat)).length : ℚ)
      ≤ (((e * f).toNat : ℕ) : ℚ) := Nat.cast_le.mpr hle
    _ = (e : ℚ) * (f : ℚ) := hcast

/-- Claim C7 witness -/
theorem epoch_result_swa_percent_range_witness :
    0 ≤ (⟨0, "Not N3", (0:ℚ)⟩ : EpochResult).swa_percent ∧
      (⟨0, "Not N3", (0:ℚ)⟩ : EpochResult).swa_percent ≤ 100 :=
  epoch_result_swa_percent_range (fun s _ => s) (fun _ _ => rfl)
    [0, 0, 0] 1 1 (by decide) (by decide)
    [⟨0, "Not N3", 0⟩, ⟨1, "Not N3", 0⟩, ⟨2, "Not N3", 0⟩] (by rfl)
    ⟨0, "Not N3", 0⟩ (by decide)
